import Mathlib

/-!
A shallow embedding of the SimpleHost file-relay server (`src/main.go`) and
proofs about its upload/expiry/download lifecycle.

Modelling conventions:
* Go strings are Lean `String`s; byte slices are `List Nat` (byte values).
* Wall-clock instants (`time.Time`) are `Nat` values (Unix seconds);
  `time.Time.After` is the strict order `>` on those values, and
  `time.Now().Unix()` is nonnegative for all realistic clocks, hence `Nat`.
* The filesystem is an association list from paths to file contents; the
  in-memory registry (`Server.files`, main.go:15) is an association list
  from generated file names to expiry instants.
* Fallible I/O (os.Create / io.Copy) is driven by an explicit oracle so
  that both the success and failure paths of the handlers are in the model.
* Each handler is a pure function from the pre-state and the request to the
  post-state, the HTTP response, and a trace of its ordered side effects.
-/

namespace SimpleHost

/-- Byte values (0..255) of a file's contents. -/
abbrev Bytes := List Nat

/-! ## Decimal formatting (`fmt.Sprintf("%d", n)` for a nonnegative integer) -/

/-- The character for a single decimal digit value. -/
def digitOfNat (n : Nat) : Char :=
  if n = 0 then '0' else if n = 1 then '1' else if n = 2 then '2'
  else if n = 3 then '3' else if n = 4 then '4' else if n = 5 then '5'
  else if n = 6 then '6' else if n = 7 then '7' else if n = 8 then '8'
  else '9'

/-- Digit accumulation loop for `decRepr`; `fuel` only bounds the
recursion depth (any `fuel > n` computes all digits of `n`). -/
def decReprGo : Nat → Nat → List Char → List Char
  | 0, _, acc => acc
  | fuel + 1, n, acc =>
    if n < 10 then digitOfNat n :: acc
    else decReprGo fuel (n / 10) (digitOfNat (n % 10) :: acc)

/-- Decimal digit string of a natural number, most significant digit first:
the `%d` verb of `fmt.Sprintf` (main.go:81) on a nonnegative value. -/
def decRepr (n : Nat) : List Char := decReprGo (n + 1) n []

/-- Decimal representation as a `String`. -/
def decimalString (n : Nat) : String := ⟨decRepr n⟩

/-- Numeric value of a digit string (digits valued by their code point
minus 48); used to pin down that `decRepr n` really denotes `n`. -/
def decValue (l : List Char) : Nat :=
  l.foldl (fun acc c => 10 * acc + (c.toNat - 48)) 0

/-! ## `filepath.Ext` (Go standard library, called at main.go:80)

Go's `filepath.Ext(path)` scans `path` from its last byte towards the
front, stops at a path separator, and returns the suffix starting at the
first `'.'` it meets (empty if none).  `fileExtCore` performs that scan on
the reversed character list, accumulating the already-scanned characters
in forward order. -/

def fileExtCore : List Char → List Char → List Char
  | [], _ => []
  | c :: rest, acc =>
    if c = '/' then []
    else if c = '.' then c :: acc
    else fileExtCore rest (c :: acc)

/-- `filepath.Ext`: the file name extension of `p`, including the leading
dot, or `""` when the final path element has no dot. -/
def filepathExt (p : String) : String := ⟨fileExtCore p.data.reverse []⟩

/-- `filepath.Join(dir, name)` as used by this program (main.go:82,155,181).
Go's Join also runs `filepath.Clean` on the result; for every path this
program actually hands to the filesystem the joined name is a nonempty
separator-free generated name, on which Clean is the identity, so the
plain concatenation is the faithful model of every reachable call. -/
def joinPath (dir name : String) : String := dir ++ "/" ++ name

/-! ## Association-list maps (Go `map` and the filesystem directory) -/

/-- Lookup in an association list keyed by strings. -/
def lookupS {α : Type} : List (String × α) → String → Option α
  | [], _ => none
  | (k', v) :: rest, k => if k' = k then some v else lookupS rest k

/-- Remove every binding of a key (Go `delete(m, k)` / `os.Remove`). -/
def eraseS {α : Type} : List (String × α) → String → List (String × α)
  | [], _ => []
  | (k', v) :: rest, k =>
    if k' = k then eraseS rest k else (k', v) :: eraseS rest k

/-- Set a key to a value (Go `m[k] = v`, or `os.Create` overwriting). -/
def setS {α : Type} (m : List (String × α)) (k : String) (v : α) :
    List (String × α) :=
  (k, v) :: eraseS m k

/-! ## The server state (main.go:13-17) plus the filesystem it touches -/

/-- The `Server` struct of main.go:13 (`storagePath`, `files` registry;
the mutex is elided because every modelled operation is an atomic step)
together with the directory of stored files, keyed by full path. -/
structure World where
  storagePath : String
  files : List (String × Nat)
  disk : List (String × Bytes)
deriving DecidableEq

/-- `NewServer` (main.go:19) with whatever files already sit in the
storage directory (state is not persisted across restarts). -/
def initWorld (sp : String) (d0 : List (String × Bytes)) : World :=
  ⟨sp, [], d0⟩

/-- HTTP statuses this program produces. -/
inductive HttpStatus where
  | ok
  | badRequest
  | notFound
  | methodNotAllowed
  | internalError
deriving DecidableEq

/-- An upload request, after multipart decoding: the HTTP method, whether
the multipart body is well formed, the total decoded body size in bytes,
and the `file` form part (original client file name and content bytes),
if present.  The content is part of the body, so its length is at most
`bodySize`. -/
structure UploadRequest where
  method : String
  multipartWellFormed : Bool
  bodySize : Nat
  filePart : Option (String × Bytes)
deriving DecidableEq

/-- Models `(*http.Request).ParseMultipartForm(maxMemory)` (main.go:67).
Per the net/http contract, the argument is a memory-buffering threshold:
the whole request body is parsed regardless of its size, with file parts
beyond `maxMemory` spilled to temporary files.  Parsing fails only when
the multipart encoding is malformed; the body size never causes failure. -/
def parseMultipartForm (_maxMemory : Nat) (r : UploadRequest) : Bool :=
  r.multipartWellFormed

/-- Outcome oracle for the fallible filesystem calls of the upload path:
whether `os.Create` succeeds, whether `io.Copy` completes, and how many
bytes a failed copy wrote before the error. -/
structure IOOracle where
  createOk : Bool
  copyOk : Bool
  truncLen : Nat
deriving DecidableEq

/-- Ordered side effects of a handler, in the order the source performs
them: the full write of a file's bytes to a storage path, the publication
of a registry entry, and the scheduling of a one-shot deletion timer. -/
inductive Event where
  | fileWritten (path : String) (content : Bytes)
  | entryPublished (name : String) (expiresAt : Nat)
  | timerScheduled (name : String) (delaySeconds : Nat)
deriving DecidableEq

/-- The parts of an upload response the claims talk about. -/
structure UploadResponse where
  status : HttpStatus
  uploadedName : Option String
  downloadLink : Option String
deriving DecidableEq

/-- The generated storage name of main.go:81:
`fmt.Sprintf("%s-%d%s", "simplehost", now, filepath.Ext(origName))`. -/
def newFileNameOf (now : Nat) (origName : String) : String :=
  "simplehost" ++ "-" ++ decimalString now ++ filepathExt origName

/-- `uploadHandler` (main.go:61-137): method check, multipart parse, file
part extraction, generated-name derivation, create + copy to storage,
registry insertion, timer scheduling, and the response with the download
link.  `now` is `time.Now().Unix()`; the expiry is 60 minutes later. -/
def uploadHandler (io : IOOracle) (now : Nat) (r : UploadRequest)
    (w : World) : World × UploadResponse × List Event :=
  if r.method ≠ "POST" then
    (w, ⟨.methodNotAllowed, none, none⟩, [])
  else if !(parseMultipartForm (10 * 1048576) r) then
    (w, ⟨.badRequest, none, none⟩, [])
  else
    match r.filePart with
    | none => (w, ⟨.badRequest, none, none⟩, [])
    | some (origName, content) =>
      let newFileName := newFileNameOf now origName
      let filePath := joinPath w.storagePath newFileName
      if !io.createOk then
        (w, ⟨.internalError, none, none⟩, [])
      else if !io.copyOk then
        ({w with disk := setS w.disk filePath (content.take io.truncLen)},
         ⟨.internalError, none, none⟩, [])
      else
        let expiresAt := now + 60 * 60
        let w2 : World :=
          { w with disk := setS w.disk filePath content,
                   files := setS w.files newFileName expiresAt }
        (w2,
         ⟨.ok, some newFileName, some ("/download?file=" ++ newFileName)⟩,
         [.fileWritten filePath content,
          .entryPublished newFileName expiresAt,
          .timerScheduled newFileName (60 * 60)])

/-- The `/upload` route of main.go:202-208: `GET` answers 404
("Route Doesn't Exist :/"), `POST` dispatches to `uploadHandler`, and any
other method falls through both branches, so the handler writes nothing
and net/http sends an empty 200 response. -/
def uploadRoute (io : IOOracle) (now : Nat) (r : UploadRequest)
    (w : World) : World × UploadResponse × List Event :=
  if r.method = "GET" then (w, ⟨.notFound, none, none⟩, [])
  else if r.method = "POST" then uploadHandler io now r w
  else (w, ⟨.ok, none, none⟩, [])

/-- The parts of a download response the claims talk about.  `opened`
records every storage path the handler handed to `os.Open`. -/
structure DownloadResponse where
  status : HttpStatus
  body : Option Bytes
  contentType : Option String
  contentLength : Option Nat
  contentDisposition : Option String
  opened : List String
deriving DecidableEq

/-- `downloadHandler` (main.go:139-175).  `detect` is the external
content sniffer `http.DetectContentType`; the source calls it on
`make([]byte, fileStat.Size())`, a zero-filled buffer of the file's size
(main.go:167).  `now` is the `time.Now()` of the request; the registry
check `!exists || now.After(expiryTime)` (main.go:150) uses Go's strict
`After`.  `http.ServeFile` streams the bytes at the joined path. -/
def downloadHandler (detect : Bytes → String) (now : Nat)
    (fileName : String) (w : World) : DownloadResponse :=
  if fileName = "" then ⟨.badRequest, none, none, none, none, []⟩
  else
    match lookupS w.files fileName with
    | none => ⟨.notFound, none, none, none, none, []⟩
    | some expiryTime =>
      if now > expiryTime then ⟨.notFound, none, none, none, none, []⟩
      else
        let filePath := joinPath w.storagePath fileName
        match lookupS w.disk filePath with
        | none => ⟨.notFound, none, none, none, none, [filePath]⟩
        | some content =>
          ⟨.ok, some content,
           some (detect (List.replicate content.length 0)),
           some content.length,
           some ("attachment; filename=\x22" ++ fileName ++ "\x22"),
           [filePath]⟩

/-- `deleteFile` (main.go:177-190), run by the one-shot expiry timer:
`os.Remove` the joined path; on failure return with the registry entry
left in place (the function returns nothing, so no failure ever reaches a
request); on success delete the registry entry. -/
def deleteFile (w : World) (fileName : String) : World :=
  let filePath := joinPath w.storagePath fileName
  match lookupS w.disk filePath with
  | none => w
  | some _ =>
    { w with disk := eraseS w.disk filePath,
             files := eraseS w.files fileName }

/-! ## Reachable states of the whole server -/

/-- One externally triggered step of the service: an HTTP request to the
`/upload` route, an HTTP request to `/download` (which never changes
state), or the firing of a deletion timer. -/
inductive Op where
  | upload (io : IOOracle) (now : Nat) (r : UploadRequest)
  | download (now : Nat) (fileName : String)
  | expire (fileName : String)

/-- The state after one step. -/
def applyOp (w : World) : Op → World
  | .upload io now r => (uploadRoute io now r w).1
  | .download _ _ => w
  | .expire n => deleteFile w n

/-- The state after a sequence of steps. -/
def runOps (w : World) : List Op → World
  | [] => w
  | op :: ops => runOps (applyOp w op) ops

/-- A state the server can actually be in: some run of operations from a
fresh server (with arbitrary pre-existing directory contents). -/
def Reachable (w : World) : Prop :=
  ∃ sp d0 ops, w = runOps (initWorld sp d0) ops

/-! ## Helper lemmas: strings and decimal digits -/

theorem strData_append (a b : String) : (a ++ b).data = a.data ++ b.data := by
  cases a
  cases b
  rfl

theorem string_eq_of_data (a b : String) (h : a.data = b.data) : a = b := by
  cases a
  cases b
  exact congrArg String.mk h

theorem digitOfNat_props (n : Nat) :
    digitOfNat n ≠ '.' ∧ digitOfNat n ≠ '/' := by
  unfold digitOfNat
  split_ifs <;> exact ⟨by decide, by decide⟩

theorem digitOfNat_val (n : Nat) (h : n < 10) :
    (digitOfNat n).toNat - 48 = n := by
  interval_cases n <;> decide

theorem decReprGo_eq (n : Nat) : ∀ (fuel : Nat) (acc : List Char),
    n < fuel → decReprGo fuel n acc = decRepr n ++ acc := by
  induction n using Nat.strong_induction_on with
  | _ n ih =>
    intro fuel acc hf
    cases fuel with
    | zero => omega
    | succ f =>
      by_cases h10 : n < 10
      · simp [decReprGo, decRepr, h10]
      · have hdiv : n / 10 < n := Nat.div_lt_self (by omega) (by omega)
        simp only [decReprGo, if_neg h10, decRepr]
        rw [ih (n / 10) hdiv f (digitOfNat (n % 10) :: acc) (by omega),
            ih (n / 10) hdiv n [digitOfNat (n % 10)] hdiv]
        simp

theorem decRepr_lt (n : Nat) (h : n < 10) : decRepr n = [digitOfNat n] := by
  simp [decRepr, decReprGo, h]

theorem decRepr_ge (n : Nat) (h : ¬ n < 10) :
    decRepr n = decRepr (n / 10) ++ [digitOfNat (n % 10)] := by
  conv_lhs => rw [decRepr]
  simp only [decReprGo, if_neg h]
  exact decReprGo_eq (n / 10) n [digitOfNat (n % 10)]
    (Nat.div_lt_self (by omega) (by omega))

theorem decRepr_chars (n : Nat) : ∀ c ∈ decRepr n, c ≠ '.' ∧ c ≠ '/' := by
  induction n using Nat.strong_induction_on with
  | _ n ih =>
    by_cases h10 : n < 10
    · rw [decRepr_lt n h10]
      intro c hc
      rw [List.mem_singleton] at hc
      subst hc
      exact digitOfNat_props n
    · rw [decRepr_ge n h10]
      intro c hc
      rcases List.mem_append.mp hc with hc | hc
      · exact ih (n / 10) (Nat.div_lt_self (by omega) (by omega)) c hc
      · rw [List.mem_singleton] at hc
        subst hc
        exact digitOfNat_props (n % 10)

theorem decValue_singleton (c : Char) : decValue [c] = c.toNat - 48 := by
  simp [decValue]

theorem decValue_append_digit (l : List Char) (c : Char) :
    decValue (l ++ [c]) = 10 * decValue l + (c.toNat - 48) := by
  simp [decValue, List.foldl_append]

theorem decValue_decRepr (n : Nat) : decValue (decRepr n) = n := by
  induction n using Nat.strong_induction_on with
  | _ n ih =>
    by_cases h10 : n < 10
    · rw [decRepr_lt n h10, decValue_singleton, digitOfNat_val n h10]
    · rw [decRepr_ge n h10, decValue_append_digit,
          ih (n / 10) (Nat.div_lt_self (by omega) (by omega)),
          digitOfNat_val (n % 10) (Nat.mod_lt _ (by omega))]
      omega

theorem decRepr_ne_nil (n : Nat) : decRepr n ≠ [] := by
  by_cases h10 : n < 10
  · rw [decRepr_lt n h10]; simp
  · rw [decRepr_ge n h10]; simp

/-! ## Helper lemmas: `filepath.Ext` -/

theorem fileExtCore_shape : ∀ (l acc : List Char),
    (∀ c ∈ acc, c ≠ '.' ∧ c ≠ '/') →
    fileExtCore l acc = [] ∨
      ∃ r, fileExtCore l acc = '.' :: r ∧ ∀ c ∈ r, c ≠ '.' ∧ c ≠ '/' := by
  intro l
  induction l with
  | nil => intro acc _; left; rfl
  | cons c rest ih =>
    intro acc h
    simp only [fileExtCore]
    split_ifs with h1 h2
    · left; rfl
    · subst h2
      right
      exact ⟨acc, rfl, h⟩
    · refine ih (c :: acc) ?_
      intro x hx
      rcases List.mem_cons.mp hx with rfl | hx
      · exact ⟨h2, h1⟩
      · exact h x hx

theorem fileExtCore_clean : ∀ (l : List Char),
    (∀ c ∈ l, c ≠ '.' ∧ c ≠ '/') → ∀ acc, fileExtCore l acc = [] := by
  intro l
  induction l with
  | nil => intro _ acc; rfl
  | cons c rest ih =>
    intro h acc
    have hc := h c (List.mem_cons_self c rest)
    simp only [fileExtCore]
    rw [if_neg hc.2, if_neg hc.1]
    exact ih (fun x hx => h x (List.mem_cons_of_mem _ hx)) _

theorem fileExtCore_append : ∀ (l : List Char),
    (∀ c ∈ l, c ≠ '.' ∧ c ≠ '/') →
    ∀ (rest acc : List Char),
      fileExtCore (l ++ rest) acc = fileExtCore rest (l.reverse ++ acc) := by
  intro l
  induction l with
  | nil => intro _ rest acc; simp
  | cons c l' ih =>
    intro h rest acc
    have hc := h c (List.mem_cons_self c l')
    have h' : ∀ x ∈ l', x ≠ '.' ∧ x ≠ '/' :=
      fun x hx => h x (List.mem_cons_of_mem _ hx)
    have step : fileExtCore ((c :: l') ++ rest) acc
        = fileExtCore (l' ++ rest) (c :: acc) := by
      simp only [List.cons_append, fileExtCore]
      rw [if_neg hc.2, if_neg hc.1]
      rfl
    rw [step, ih h' rest (c :: acc)]
    simp

theorem fileExtCore_suffix : ∀ (l acc : List Char),
    fileExtCore l acc = [] ∨ (fileExtCore l acc) <:+ (l.reverse ++ acc) := by
  intro l
  induction l with
  | nil => intro acc; left; rfl
  | cons c rest ih =>
    intro acc
    simp only [fileExtCore]
    split_ifs with h1 h2
    · left; rfl
    · right
      refine ⟨rest.reverse, ?_⟩
      simp
    · rcases ih (c :: acc) with h | h
      · left; exact h
      · right
        simpa using h

theorem filepathExt_shape (p : String) :
    (filepathExt p).data = [] ∨
      ∃ r, (filepathExt p).data = '.' :: r ∧ ∀ c ∈ r, c ≠ '.' ∧ c ≠ '/' := by
  exact fileExtCore_shape p.data.reverse [] (by simp)

theorem filepathExt_suffix (p : String) :
    (filepathExt p).data = [] ∨ (filepathExt p).data <:+ p.data := by
  rcases fileExtCore_suffix p.data.reverse [] with h | h
  · left; exact h
  · right
    simpa [filepathExt] using h

/-! ## Helper lemmas: association-list maps -/

theorem lookupS_eraseS_self {α : Type} :
    ∀ (m : List (String × α)) (k : String), lookupS (eraseS m k) k = none := by
  intro m k
  induction m with
  | nil => rfl
  | cons p rest ih =>
    obtain ⟨k', v⟩ := p
    simp only [eraseS]
    split_ifs with h
    · exact ih
    · simp only [lookupS, if_neg h]
      exact ih

theorem lookupS_eraseS_ne {α : Type} :
    ∀ (m : List (String × α)) (k k' : String), k' ≠ k →
      lookupS (eraseS m k) k' = lookupS m k' := by
  intro m k k' hne
  induction m with
  | nil => rfl
  | cons p rest ih =>
    obtain ⟨k₀, v⟩ := p
    simp only [eraseS]
    split_ifs with h
    · subst h
      have hne' : ¬ (k₀ = k') := fun he => hne he.symm
      simp only [lookupS, if_neg hne']
      exact ih
    · simp only [lookupS]
      split_ifs with h2
      · rfl
      · exact ih

theorem lookupS_setS_self {α : Type} (m : List (String × α)) (k : String)
    (v : α) : lookupS (setS m k v) k = some v := by
  simp [setS, lookupS]

theorem lookupS_setS_ne {α : Type} (m : List (String × α)) (k k' : String)
    (v : α) (h : k' ≠ k) : lookupS (setS m k v) k' = lookupS m k' := by
  have h' : ¬ (k = k') := fun he => h he.symm
  simp only [setS, lookupS, if_neg h']
  exact lookupS_eraseS_ne m k k' h

theorem mem_eraseS {α : Type} :
    ∀ (m : List (String × α)) (k : String) (p : String × α),
      p ∈ eraseS m k → p ∈ m := by
  intro m k p
  induction m with
  | nil => intro h; exact absurd h (List.not_mem_nil p)
  | cons q rest ih =>
    obtain ⟨k', v⟩ := q
    simp only [eraseS]
    split_ifs with h
    · intro hm; exact List.mem_cons_of_mem _ (ih hm)
    · intro hm
      rcases List.mem_cons.mp hm with rfl | hm
      · exact List.mem_cons_self _ _
      · exact List.mem_cons_of_mem _ (ih hm)

theorem mem_setS {α : Type} (m : List (String × α)) (k : String) (v : α)
    (p : String × α) (h : p ∈ setS m k v) : p = (k, v) ∨ p ∈ m := by
  rcases List.mem_cons.mp h with rfl | h
  · left; rfl
  · right; exact mem_eraseS m k p h

theorem lookupS_some_mem {α : Type} :
    ∀ (m : List (String × α)) (k : String) (v : α),
      lookupS m k = some v → (k, v) ∈ m := by
  intro m k v
  induction m with
  | nil => intro h; exact absurd h (by simp [lookupS])
  | cons q rest ih =>
    obtain ⟨k', v'⟩ := q
    simp only [lookupS]
    split_ifs with h
    · subst h
      intro hv
      rw [Option.some_inj] at hv
      subst hv
      exact List.mem_cons_self _ _
    · intro hv
      exact List.mem_cons_of_mem _ (ih hv)

/-! ## Helper lemmas: the generated storage name -/

theorem newFileNameOf_data (t : Nat) (f : String) :
    (newFileNameOf t f).data
      = "simplehost-".data ++ decRepr t ++ (filepathExt f).data := by
  show (("simplehost" ++ "-" ++ decimalString t) ++ filepathExt f).data = _
  rw [strData_append, strData_append, strData_append]
  have h : ("simplehost".data ++ "-".data) = "simplehost-".data := by decide
  rw [h]
  rfl

theorem simplehostDash_clean : ∀ c ∈ "simplehost-".data, c ≠ '.' ∧ c ≠ '/' := by
  decide

/-- The generated name's extension is exactly the original file's
extension: appending the extension to the dot-free, separator-free stem
`simplehost-<digits>` leaves `filepath.Ext` unchanged. -/
theorem filepathExt_newFileNameOf (t : Nat) (f : String) :
    filepathExt (newFileNameOf t f) = filepathExt f := by
  apply string_eq_of_data
  show fileExtCore (newFileNameOf t f).data.reverse [] = (filepathExt f).data
  rw [newFileNameOf_data]
  have hstem : ∀ c ∈ ("simplehost-".data ++ decRepr t), c ≠ '.' ∧ c ≠ '/' := by
    intro c hc
    rcases List.mem_append.mp hc with hc | hc
    · exact simplehostDash_clean c hc
    · exact decRepr_chars t c hc
  rcases filepathExt_shape f with he | ⟨r, he, hr⟩
  · rw [he, List.append_nil]
    apply fileExtCore_clean
    intro c hc
    exact hstem c (List.mem_reverse.mp hc)
  · rw [he, List.reverse_append, List.reverse_cons, List.append_assoc,
        fileExtCore_append r.reverse
          (fun c hc => hr c (List.mem_reverse.mp hc))]
    simp only [List.singleton_append, fileExtCore]
    rw [if_neg (by decide : ¬('.' = '/'))]
    simp

/-! ## The registry-key invariant -/

/-- The shape `filepath.Ext` can return: empty, or a leading dot followed
by characters that are neither dots nor separators. -/
def ExtShape (e : List Char) : Prop :=
  e = [] ∨ ∃ r, e = '.' :: r ∧ ∀ c ∈ r, c ≠ '.' ∧ c ≠ '/'

/-- A string of the exact shape the upload path generates:
`simplehost-` followed by the decimal digits of some instant followed by
an extension. -/
def GeneratedKey (k : String) : Prop :=
  ∃ t e, ExtShape e ∧ k.data = "simplehost-".data ++ decRepr t ++ e

theorem extShape_filepathExt (f : String) : ExtShape (filepathExt f).data :=
  filepathExt_shape f

theorem generatedKey_newFileNameOf (t : Nat) (f : String) :
    GeneratedKey (newFileNameOf t f) :=
  ⟨t, (filepathExt f).data, extShape_filepathExt f, newFileNameOf_data t f⟩

theorem generatedKey_no_slash (k : String) (h : GeneratedKey k) :
    '/' ∉ k.data := by
  obtain ⟨t, e, hshape, hdata⟩ := h
  rw [hdata]
  intro hmem
  rcases List.mem_append.mp hmem with hm | hm
  · rcases List.mem_append.mp hm with hm | hm
    · exact (simplehostDash_clean '/' hm).2 rfl
    · exact (decRepr_chars t '/' hm).2 rfl
  · rcases hshape with rfl | ⟨r, rfl, hr⟩
    · exact absurd hm (List.not_mem_nil '/')
    · rcases List.mem_cons.mp hm with hm | hm
      · exact absurd hm.symm (by decide)
      · exact (hr '/' hm).2 rfl

theorem generatedKey_dot_count (k : String) (h : GeneratedKey k) :
    k.data.count '.' ≤ 1 := by
  obtain ⟨t, e, hshape, hdata⟩ := h
  rw [hdata, List.count_append, List.count_append]
  have h1 : "simplehost-".data.count '.' = 0 := by decide
  have h2 : (decRepr t).count '.' = 0 :=
    List.count_eq_zero.mpr (fun hm => (decRepr_chars t '.' hm).1 rfl)
  have h3 : e.count '.' ≤ 1 := by
    rcases hshape with rfl | ⟨r, rfl, hr⟩
    · simp
    · rw [List.count_cons]
      have : r.count '.' = 0 :=
        List.count_eq_zero.mpr (fun hm => (hr '.' hm).1 rfl)
      simp [this]
  omega

theorem generatedKey_no_dotdot (k : String) (h : GeneratedKey k) :
    ¬ (['.', '.'] <:+: k.data) := by
  intro hinf
  have hcount : (['.', '.'] : List Char).count '.' ≤ k.data.count '.' :=
    hinf.sublist.count_le '.'
  have h2 : (['.', '.'] : List Char).count '.' = 2 := by decide
  have := generatedKey_dot_count k h
  omega

theorem generatedKey_head (k : String) (h : GeneratedKey k) :
    ∃ l, k.data = 's' :: l := by
  obtain ⟨t, e, _, hdata⟩ := h
  exact ⟨"implehost-".data ++ decRepr t ++ e, by simpa using hdata⟩

theorem generatedKey_ne_empty (k : String) (h : GeneratedKey k) : k ≠ "" := by
  obtain ⟨l, hl⟩ := generatedKey_head k h
  intro he
  rw [he] at hl
  exact absurd hl (by simp [String.data])

/-- Every key in the registry was generated by the upload path. -/
def RegistryInv (w : World) : Prop := ∀ p ∈ w.files, GeneratedKey p.1

theorem registryInv_init (sp : String) (d0 : List (String × Bytes)) :
    RegistryInv (initWorld sp d0) := by
  intro p hp
  exact absurd hp (List.not_mem_nil p)

theorem registryInv_uploadHandler (io : IOOracle) (now : Nat)
    (r : UploadRequest) (w : World) (h : RegistryInv w) :
    RegistryInv (uploadHandler io now r w).1 := by
  intro p hp
  rcases hfp : r.filePart with _ | ⟨origName, content⟩ <;>
    simp only [uploadHandler, hfp] at hp
  · split_ifs at hp <;> exact h p hp
  · split_ifs at hp <;>
      first
        | exact h p hp
        | (rcases mem_setS _ _ _ p hp with rfl | hp
           · exact generatedKey_newFileNameOf now _
           · exact h p hp)

theorem registryInv_applyOp (w : World) (op : Op) (h : RegistryInv w) :
    RegistryInv (applyOp w op) := by
  cases op with
  | download now n => exact h
  | expire n =>
    intro p hp
    simp only [applyOp, deleteFile] at hp
    split at hp
    · exact h p hp
    · exact h p (mem_eraseS _ _ _ hp)
  | upload io now r =>
    simp only [applyOp, uploadRoute]
    split_ifs with h1 h2
    · exact h
    · exact registryInv_uploadHandler io now r w h
    · exact h

theorem runOps_registryInv :
    ∀ (ops : List Op) (w : World), RegistryInv w → RegistryInv (runOps w ops) := by
  intro ops
  induction ops with
  | nil => intro w h; exact h
  | cons op rest ih =>
    intro w h
    exact ih (applyOp w op) (registryInv_applyOp w op h)

/-- Reachability implies the registry-key invariant. -/
theorem reachable_registryInv (w : World) (h : Reachable w) : RegistryInv w := by
  obtain ⟨sp, d0, ops, rfl⟩ := h
  exact runOps_registryInv ops (initWorld sp d0) (registryInv_init sp d0)

theorem digitOfNat_range (n : Nat) :
    48 ≤ (digitOfNat n).toNat ∧ (digitOfNat n).toNat ≤ 57 := by
  unfold digitOfNat
  split_ifs <;> exact ⟨by decide, by decide⟩

theorem decRepr_digit_range (n : Nat) :
    ∀ c ∈ decRepr n, 48 ≤ c.toNat ∧ c.toNat ≤ 57 := by
  induction n using Nat.strong_induction_on with
  | _ n ih =>
    by_cases h10 : n < 10
    · rw [decRepr_lt n h10]
      intro c hc
      rw [List.mem_singleton] at hc
      subst hc
      exact digitOfNat_range n
    · rw [decRepr_ge n h10]
      intro c hc
      rcases List.mem_append.mp hc with hc | hc
      · exact ih (n / 10) (Nat.div_lt_self (by omega) (by omega)) c hc
      · rw [List.mem_singleton] at hc
        subst hc
        exact digitOfNat_range (n % 10)

theorem generatedKey_ne_dot (k : String) (h : GeneratedKey k) : k ≠ "." := by
  obtain ⟨l, hl⟩ := generatedKey_head k h
  intro he
  rw [he, (by decide : ".".data = ['.'])] at hl
  injection hl with h1 _
  exact absurd h1 (by decide)

theorem generatedKey_ne_dotdot (k : String) (h : GeneratedKey k) :
    k ≠ ".." := by
  obtain ⟨l, hl⟩ := generatedKey_head k h
  intro he
  rw [he, (by decide : "..".data = ['.', '.'])] at hl
  injection hl with h1 _
  exact absurd h1 (by decide)

/-- A path that cannot escape `root`: it is `root ++ "/"` followed by one
nonempty, separator-free component that is neither `.` nor `..`. -/
def pathInsideRoot (root p : String) : Prop :=
  ∃ base, p = root ++ "/" ++ base ∧ base ≠ "" ∧ '/' ∉ base.data ∧
    base ≠ "." ∧ base ≠ ".."

/-! ## Claim C5 -/

/-- C5: for every upload accepted at Unix time `t` with original file name
`f`, the generated storage name is exactly `"simplehost-"` followed by the
decimal digits of `t` (digit characters whose decimal value is `t`)
followed by the extension of `f`, where the extension includes the leading
dot when present and is empty otherwise; in particular the generated
name's extension equals the original file's extension exactly. -/
theorem generated_name_format (t : Nat) (f : String) :
    newFileNameOf t f = "simplehost-" ++ decimalString t ++ filepathExt f ∧
    (∀ c ∈ (decimalString t).data, 48 ≤ c.toNat ∧ c.toNat ≤ 57) ∧
    decValue (decimalString t).data = t ∧
    filepathExt (newFileNameOf t f) = filepathExt f ∧
    ((filepathExt f).data = [] ∨
      ∃ r, (filepathExt f).data = '.' :: r) := by
  refine ⟨?_, decRepr_digit_range t, decValue_decRepr t,
          filepathExt_newFileNameOf t f, ?_⟩
  · apply string_eq_of_data
    rw [newFileNameOf_data, strData_append, strData_append]
    rfl
  · rcases filepathExt_shape f with he | ⟨r, he, _⟩
    · exact Or.inl he
    · exact Or.inr ⟨r, he⟩

/-! ## Claim C9 -/

/-- C9: in every reachable state, every key present in the registry is of
the generated shape `simplehost-<decimal digits><extension>`, contains no
path separator and no `..` sequence, and joining the storage root with the
key yields a path that resolves inside the storage root. -/
theorem registry_keys_safe (w : World) (hw : Reachable w) :
    ∀ p ∈ w.files,
      (∃ t e, ExtShape e ∧
        p.1.data = "simplehost-".data ++ decRepr t ++ e) ∧
      '/' ∉ p.1.data ∧
      ¬ (['.', '.'] <:+: p.1.data) ∧
      pathInsideRoot w.storagePath (joinPath w.storagePath p.1) := by
  intro p hp
  have hk : GeneratedKey p.1 := reachable_registryInv w hw p hp
  refine ⟨hk, generatedKey_no_slash _ hk, generatedKey_no_dotdot _ hk,
          p.1, rfl, generatedKey_ne_empty _ hk, generatedKey_no_slash _ hk,
          generatedKey_ne_dot _ hk, generatedKey_ne_dotdot _ hk⟩

/-- Witness for C9 on a concrete reachable state holding one entry. -/
theorem registry_keys_safe_witness :
    (∃ t e, ExtShape e ∧
      ("simplehost-1700000000.pdf" : String).data
        = "simplehost-".data ++ decRepr t ++ e) ∧
    '/' ∉ ("simplehost-1700000000.pdf" : String).data ∧
    ¬ (['.', '.'] <:+: ("simplehost-1700000000.pdf" : String).data) ∧
    pathInsideRoot "./uploads"
      (joinPath "./uploads" "simplehost-1700000000.pdf") :=
  registry_keys_safe
    (runOps (initWorld "./uploads" [])
      [Op.upload ⟨true, true, 0⟩ 1700000000
        ⟨"POST", true, 3, some ("report.pdf", [97, 98, 99])⟩])
    ⟨"./uploads", [], _, rfl⟩
    ("simplehost-1700000000.pdf", 1700003600) (by decide)

/-! ## Claim C3 -/

/-- C3: in every reachable state, a download request whose `file` value
contains a path separator or a parent-directory `..` sequence is turned
away with NotFound by the registry check, before the storage path is
constructed: no path is handed to the filesystem and no body is served. -/
theorem traversal_names_rejected (w : World) (hw : Reachable w)
    (detect : Bytes → String) (now : Nat) (name : String)
    (hbad : '/' ∈ name.data ∨ ['.', '.'] <:+: name.data) :
    (downloadHandler detect now name w).status = HttpStatus.notFound ∧
    (downloadHandler detect now name w).opened = [] ∧
    (downloadHandler detect now name w).body = none := by
  have hne : name ≠ "" := by
    intro he
    subst he
    rcases hbad with h | h
    · exact absurd h (by decide)
    · exact absurd h (by decide)
  have hlk : lookupS w.files name = none := by
    cases hcase : lookupS w.files name with
    | none => rfl
    | some e =>
      have hmem := lookupS_some_mem w.files name e hcase
      have hk : GeneratedKey name := reachable_registryInv w hw (name, e) hmem
      rcases hbad with h | h
      · exact absurd h (generatedKey_no_slash _ hk)
      · exact absurd h (generatedKey_no_dotdot _ hk)
  simp [downloadHandler, hne, hlk]

/-- Witness for C3: a freshly started server rejects a traversal name. -/
theorem traversal_names_rejected_witness :
    (downloadHandler (fun _ => "application/octet-stream") 0
        "../../etc/passwd" (initWorld "./uploads" [])).status
      = HttpStatus.notFound ∧
    (downloadHandler (fun _ => "application/octet-stream") 0
        "../../etc/passwd" (initWorld "./uploads" [])).opened = [] ∧
    (downloadHandler (fun _ => "application/octet-stream") 0
        "../../etc/passwd" (initWorld "./uploads" [])).body = none :=
  traversal_names_rejected (initWorld "./uploads" [])
    ⟨"./uploads", [], [], rfl⟩ (fun _ => "application/octet-stream") 0
    "../../etc/passwd" (Or.inl (by decide))

/-! ## Claim C7 -/

/-- C7: when the expiry task's removal of the backing file fails, the
whole state — in particular the registry entry — is left untouched; when
removal succeeds, both the file and the registry entry for the name are
gone.  `deleteFile` returns only a state, so neither outcome can reach
any request. -/
theorem deleteFile_failure_keeps_entry (w : World) (fileName : String) :
    (lookupS w.disk (joinPath w.storagePath fileName) = none →
      deleteFile w fileName = w) ∧
    (∀ b, lookupS w.disk (joinPath w.storagePath fileName) = some b →
      (deleteFile w fileName).files = eraseS w.files fileName ∧
      lookupS (deleteFile w fileName).files fileName = none ∧
      lookupS (deleteFile w fileName).disk
        (joinPath w.storagePath fileName) = none) := by
  constructor
  · intro h
    simp [deleteFile, h]
  · intro b h
    simp [deleteFile, h, lookupS_eraseS_self]

/-- Witness for C7 on a one-entry state. -/
theorem deleteFile_failure_keeps_entry_witness :
    (lookupS ([("up/simplehost-7.txt", [1])] : List (String × Bytes))
        (joinPath "up" "simplehost-7.txt") = none →
      deleteFile ⟨"up", [("simplehost-7.txt", 9)],
          [("up/simplehost-7.txt", [1])]⟩ "simplehost-7.txt"
        = ⟨"up", [("simplehost-7.txt", 9)], [("up/simplehost-7.txt", [1])]⟩) ∧
    (∀ b, lookupS ([("up/simplehost-7.txt", [1])] : List (String × Bytes))
        (joinPath "up" "simplehost-7.txt") = some b →
      (deleteFile ⟨"up", [("simplehost-7.txt", 9)],
          [("up/simplehost-7.txt", [1])]⟩ "simplehost-7.txt").files
        = eraseS [("simplehost-7.txt", 9)] "simplehost-7.txt" ∧
      lookupS (deleteFile ⟨"up", [("simplehost-7.txt", 9)],
          [("up/simplehost-7.txt", [1])]⟩ "simplehost-7.txt").files
        "simplehost-7.txt" = none ∧
      lookupS (deleteFile ⟨"up", [("simplehost-7.txt", 9)],
          [("up/simplehost-7.txt", [1])]⟩ "simplehost-7.txt").disk
        (joinPath "up" "simplehost-7.txt") = none) :=
  deleteFile_failure_keeps_entry
    ⟨"up", [("simplehost-7.txt", 9)], [("up/simplehost-7.txt", [1])]⟩
    "simplehost-7.txt"

/-! ## Claim C2 -/

/-- C2 counterexample: at the instant exactly equal to the recorded
`expiresAt` (here 100), with the entry still registered and the bytes
still on storage, the download does not fail with NotFound — the strict
`time.Now().After(expiryTime)` check lets it through and it succeeds. -/
theorem download_at_expiry_instant_succeeds :
    (downloadHandler (fun _ => "application/octet-stream") 100
        "simplehost-7.txt"
        ⟨"./uploads", [("simplehost-7.txt", 100)],
          [("./uploads/simplehost-7.txt", [104, 105])]⟩).status
      ≠ HttpStatus.notFound ∧
    (downloadHandler (fun _ => "application/octet-stream") 100
        "simplehost-7.txt"
        ⟨"./uploads", [("simplehost-7.txt", 100)],
          [("./uploads/simplehost-7.txt", [104, 105])]⟩).status
      = HttpStatus.ok ∧
    (downloadHandler (fun _ => "application/octet-stream") 100
        "simplehost-7.txt"
        ⟨"./uploads", [("simplehost-7.txt", 100)],
          [("./uploads/simplehost-7.txt", [104, 105])]⟩).body
      = some [104, 105] := by
  decide

/-- C2 (amended): a download of a registered name fails with NotFound
exactly when `now` is strictly after the recorded `expiresAt` — even if
the bytes are still on storage no file is opened then; at any time at or
before `expiresAt` (the equal instant included) the registry check
passes, and with the bytes still on storage the download succeeds. -/
theorem download_expiry_boundary (detect : Bytes → String) (now : Nat)
    (name : String) (w : World) (e : Nat)
    (hreg : lookupS w.files name = some e) (hne : name ≠ "") :
    (now > e →
      (downloadHandler detect now name w).status = HttpStatus.notFound ∧
      (downloadHandler detect now name w).opened = []) ∧
    (now ≤ e → ∀ content,
      lookupS w.disk (joinPath w.storagePath name) = some content →
      (downloadHandler detect now name w).status = HttpStatus.ok ∧
      (downloadHandler detect now name w).body = some content) := by
  constructor
  · intro hgt
    simp [downloadHandler, hne, hreg, hgt]
  · intro hle content hdisk
    have hngt : ¬ (now > e) := by omega
    simp [downloadHandler, hne, hreg, hngt, hdisk]

/-- Witness for C2's amended theorem on a one-entry state. -/
theorem download_expiry_boundary_witness :
    (100 > 100 →
      (downloadHandler (fun _ => "t") 100 "simplehost-7.txt"
          ⟨"up", [("simplehost-7.txt", 100)],
            [("up/simplehost-7.txt", [1])]⟩).status = HttpStatus.notFound ∧
      (downloadHandler (fun _ => "t") 100 "simplehost-7.txt"
          ⟨"up", [("simplehost-7.txt", 100)],
            [("up/simplehost-7.txt", [1])]⟩).opened = []) ∧
    (100 ≤ 100 → ∀ content,
      lookupS ([("up/simplehost-7.txt", [1])] : List (String × Bytes))
        (joinPath "up" "simplehost-7.txt") = some content →
      (downloadHandler (fun _ => "t") 100 "simplehost-7.txt"
          ⟨"up", [("simplehost-7.txt", 100)],
            [("up/simplehost-7.txt", [1])]⟩).status = HttpStatus.ok ∧
      (downloadHandler (fun _ => "t") 100 "simplehost-7.txt"
          ⟨"up", [("simplehost-7.txt", 100)],
            [("up/simplehost-7.txt", [1])]⟩).body = some content) :=
  download_expiry_boundary (fun _ => "t") 100 "simplehost-7.txt"
    ⟨"up", [("simplehost-7.txt", 100)], [("up/simplehost-7.txt", [1])]⟩
    100 (by decide) (by decide)

/-! ## Claim C1 -/

/-- C1: a successful upload stores the uploaded bytes under the generated
name and answers with the download link for that name; fetching that name
at any time not after the expiry, with the state unchanged since the
upload, returns byte-for-byte the uploaded content. -/
theorem upload_download_roundtrip (io : IOOracle) (now now2 : Nat)
    (r : UploadRequest) (w : World) (detect : Bytes → String)
    (f : String) (content : Bytes)
    (hm : r.method = "POST") (hwf : r.multipartWellFormed = true)
    (hfp : r.filePart = some (f, content))
    (hc : io.createOk = true) (hk : io.copyOk = true)
    (hnow : now2 ≤ now + 60 * 60) :
    (uploadHandler io now r w).2.1.status = HttpStatus.ok ∧
    (uploadHandler io now r w).2.1.uploadedName
      = some (newFileNameOf now f) ∧
    (uploadHandler io now r w).2.1.downloadLink
      = some ("/download?file=" ++ newFileNameOf now f) ∧
    (downloadHandler detect now2 (newFileNameOf now f)
        (uploadHandler io now r w).1).status = HttpStatus.ok ∧
    (downloadHandler detect now2 (newFileNameOf now f)
        (uploadHandler io now r w).1).body = some content := by
  have hup : uploadHandler io now r w
      = ({ w with
            disk := setS w.disk
              (joinPath w.storagePath (newFileNameOf now f)) content,
            files := setS w.files (newFileNameOf now f) (now + 60 * 60) },
         ⟨.ok, some (newFileNameOf now f),
          some ("/download?file=" ++ newFileNameOf now f)⟩,
         [.fileWritten (joinPath w.storagePath (newFileNameOf now f)) content,
          .entryPublished (newFileNameOf now f) (now + 60 * 60),
          .timerScheduled (newFileNameOf now f) (60 * 60)]) := by
    simp [uploadHandler, parseMultipartForm, hm, hwf, hfp, hc, hk]
  have hne : newFileNameOf now f ≠ "" :=
    generatedKey_ne_empty _ (generatedKey_newFileNameOf now f)
  have hngt : ¬ (now2 > now + 60 * 60) := by omega
  rw [hup]
  simp [downloadHandler, hne, hngt, lookupS_setS_self]

/-- Witness for C1: upload `"report.pdf"` (bytes `"abc"`) at Unix time
1700000000 and immediately download the generated name. -/
theorem upload_download_roundtrip_witness :
    (uploadHandler ⟨true, true, 0⟩ 1700000000
        ⟨"POST", true, 3, some ("report.pdf", [97, 98, 99])⟩
        (initWorld "./uploads" [])).2.1.status = HttpStatus.ok ∧
    (uploadHandler ⟨true, true, 0⟩ 1700000000
        ⟨"POST", true, 3, some ("report.pdf", [97, 98, 99])⟩
        (initWorld "./uploads" [])).2.1.uploadedName
      = some (newFileNameOf 1700000000 "report.pdf") ∧
    (uploadHandler ⟨true, true, 0⟩ 1700000000
        ⟨"POST", true, 3, some ("report.pdf", [97, 98, 99])⟩
        (initWorld "./uploads" [])).2.1.downloadLink
      = some ("/download?file=" ++ newFileNameOf 1700000000 "report.pdf") ∧
    (downloadHandler (fun _ => "application/pdf") 1700000000
        (newFileNameOf 1700000000 "report.pdf")
        (uploadHandler ⟨true, true, 0⟩ 1700000000
          ⟨"POST", true, 3, some ("report.pdf", [97, 98, 99])⟩
          (initWorld "./uploads" [])).1).status = HttpStatus.ok ∧
    (downloadHandler (fun _ => "application/pdf") 1700000000
        (newFileNameOf 1700000000 "report.pdf")
        (uploadHandler ⟨true, true, 0⟩ 1700000000
          ⟨"POST", true, 3, some ("report.pdf", [97, 98, 99])⟩
          (initWorld "./uploads" [])).1).body = some [97, 98, 99] :=
  upload_download_roundtrip ⟨true, true, 0⟩ 1700000000 1700000000
    ⟨"POST", true, 3, some ("report.pdf", [97, 98, 99])⟩
    (initWorld "./uploads" []) (fun _ => "application/pdf")
    "report.pdf" [97, 98, 99] rfl rfl rfl rfl rfl (by omega)

/-! ## Claim C6 -/

/-- C6 counterexample: a GET request through the registered `/upload`
route is answered 404 NotFound ("Route Doesn't Exist :/"), not 405
MethodNotAllowed as the claim states. -/
theorem get_upload_route_yields_404 :
    (uploadRoute ⟨true, true, 0⟩ 0 ⟨"GET", true, 0, none⟩
        (initWorld "./uploads" [])).2.1.status = HttpStatus.notFound ∧
    (uploadRoute ⟨true, true, 0⟩ 0 ⟨"GET", true, 0, none⟩
        (initWorld "./uploads" [])).2.1.status
      ≠ HttpStatus.methodNotAllowed := by
  decide

/-- C6 (amended): the upload handler function itself answers 405
MethodNotAllowed to any non-POST request and changes nothing; but through
the registered `/upload` route a GET receives 404 NotFound and any other
non-POST method receives an empty success response; in every non-POST
case the state is unchanged — no file is written and no registry entry is
created — and no effect events occur. -/
theorem nonpost_upload_no_effect (io : IOOracle) (now : Nat)
    (r : UploadRequest) (w : World) (h : r.method ≠ "POST") :
    uploadHandler io now r w
      = (w, ⟨HttpStatus.methodNotAllowed, none, none⟩, []) ∧
    (uploadRoute io now r w).1 = w ∧
    (uploadRoute io now r w).2.2 = [] ∧
    (uploadRoute io now r w).2.1.uploadedName = none ∧
    (uploadRoute io now r w).2.1.status
      = (if r.method = "GET" then HttpStatus.notFound else HttpStatus.ok) := by
  have h1 : uploadHandler io now r w
      = (w, ⟨HttpStatus.methodNotAllowed, none, none⟩, []) := by
    simp [uploadHandler, h]
  refine ⟨h1, ?_⟩
  by_cases hg : r.method = "GET"
  · simp [uploadRoute, hg]
  · simp [uploadRoute, hg, h]

/-- Witness for C6's amended theorem: a PUT request. -/
theorem nonpost_upload_no_effect_witness :
    uploadHandler ⟨true, true, 0⟩ 0 ⟨"PUT", true, 0, none⟩
        (initWorld "./uploads" [])
      = (initWorld "./uploads" [],
         ⟨HttpStatus.methodNotAllowed, none, none⟩, []) ∧
    (uploadRoute ⟨true, true, 0⟩ 0 ⟨"PUT", true, 0, none⟩
        (initWorld "./uploads" [])).1 = initWorld "./uploads" [] ∧
    (uploadRoute ⟨true, true, 0⟩ 0 ⟨"PUT", true, 0, none⟩
        (initWorld "./uploads" [])).2.2 = [] ∧
    (uploadRoute ⟨true, true, 0⟩ 0 ⟨"PUT", true, 0, none⟩
        (initWorld "./uploads" [])).2.1.uploadedName = none ∧
    (uploadRoute ⟨true, true, 0⟩ 0 ⟨"PUT", true, 0, none⟩
        (initWorld "./uploads" [])).2.1.status
      = (if ("PUT" : String) = "GET" then HttpStatus.notFound
         else HttpStatus.ok) :=
  nonpost_upload_no_effect ⟨true, true, 0⟩ 0 ⟨"PUT", true, 0, none⟩
    (initWorld "./uploads" []) (by decide)

/-! ## Claim C8 -/

/-- C8: on a successful upload the trace of effects puts the full write
of the bytes strictly before the publication of the registry entry, and
that strictly before the scheduling of the 60-minute one-shot deletion
timer; an upload failing at creation or at writing publishes no entry and
schedules no timer, leaving the registry as it was. -/
theorem upload_effect_ordering (io : IOOracle) (now : Nat)
    (r : UploadRequest) (w : World) (f : String) (content : Bytes)
    (hm : r.method = "POST") (hwf : r.multipartWellFormed = true)
    (hfp : r.filePart = some (f, content)) :
    (io.createOk = true → io.copyOk = true →
      ∃ iW iP iS : Nat, iW < iP ∧ iP < iS ∧
        (uploadHandler io now r w).2.2[iW]?
          = some (Event.fileWritten
              (joinPath w.storagePath (newFileNameOf now f)) content) ∧
        (uploadHandler io now r w).2.2[iP]?
          = some (Event.entryPublished (newFileNameOf now f)
              (now + 60 * 60)) ∧
        (uploadHandler io now r w).2.2[iS]?
          = some (Event.timerScheduled (newFileNameOf now f) (60 * 60)) ∧
        lookupS (uploadHandler io now r w).1.files (newFileNameOf now f)
          = some (now + 60 * 60)) ∧
    (¬ (io.createOk = true ∧ io.copyOk = true) →
      (uploadHandler io now r w).1.files = w.files ∧
      (uploadHandler io now r w).2.2 = []) := by
  constructor
  · intro hc hk
    refine ⟨0, 1, 2, by omega, by omega, ?_⟩
    simp [uploadHandler, parseMultipartForm, hm, hwf, hfp, hc, hk,
          lookupS_setS_self]
  · intro hfail
    by_cases hc : io.createOk = true
    · have hk : io.copyOk = false := by
        cases hcop : io.copyOk with
        | false => rfl
        | true => exact absurd ⟨hc, hcop⟩ hfail
      simp [uploadHandler, parseMultipartForm, hm, hwf, hfp, hc, hk]
    · have hc' : io.createOk = false := by
        cases hcc : io.createOk with
        | false => rfl
        | true => exact absurd hcc hc
      simp [uploadHandler, parseMultipartForm, hm, hwf, hfp, hc']

/-- Witness for C8 on a concrete successful upload. -/
theorem upload_effect_ordering_witness :
    ((⟨true, true, 0⟩ : IOOracle).createOk = true →
      (⟨true, true, 0⟩ : IOOracle).copyOk = true →
      ∃ iW iP iS : Nat, iW < iP ∧ iP < iS ∧
        (uploadHandler ⟨true, true, 0⟩ 5
            ⟨"POST", true, 2, some ("a.txt", [7, 8])⟩
            (initWorld "up" [])).2.2[iW]?
          = some (Event.fileWritten
              (joinPath "up" (newFileNameOf 5 "a.txt")) [7, 8]) ∧
        (uploadHandler ⟨true, true, 0⟩ 5
            ⟨"POST", true, 2, some ("a.txt", [7, 8])⟩
            (initWorld "up" [])).2.2[iP]?
          = some (Event.entryPublished (newFileNameOf 5 "a.txt")
              (5 + 60 * 60)) ∧
        (uploadHandler ⟨true, true, 0⟩ 5
            ⟨"POST", true, 2, some ("a.txt", [7, 8])⟩
            (initWorld "up" [])).2.2[iS]?
          = some (Event.timerScheduled (newFileNameOf 5 "a.txt")
              (60 * 60)) ∧
        lookupS (uploadHandler ⟨true, true, 0⟩ 5
            ⟨"POST", true, 2, some ("a.txt", [7, 8])⟩
            (initWorld "up" [])).1.files (newFileNameOf 5 "a.txt")
          = some (5 + 60 * 60)) ∧
    (¬ ((⟨true, true, 0⟩ : IOOracle).createOk = true ∧
        (⟨true, true, 0⟩ : IOOracle).copyOk = true) →
      (uploadHandler ⟨true, true, 0⟩ 5
          ⟨"POST", true, 2, some ("a.txt", [7, 8])⟩
          (initWorld "up" [])).1.files = (initWorld "up" []).files ∧
      (uploadHandler ⟨true, true, 0⟩ 5
          ⟨"POST", true, 2, some ("a.txt", [7, 8])⟩
          (initWorld "up" [])).2.2 = []) :=
  upload_effect_ordering ⟨true, true, 0⟩ 5
    ⟨"POST", true, 2, some ("a.txt", [7, 8])⟩ (initWorld "up" [])
    "a.txt" [7, 8] rfl rfl rfl

/-! ## Claim C10 -/

/-- C10: on every successful download the Content-Type header is the
sniffer's verdict on a zero-filled buffer whose length is the file's
size — never on the file's actual bytes — so any two served files of
equal size receive the identical Content-Type value, whatever the
sniffing function is. -/
theorem content_type_depends_only_on_size (detect : Bytes → String)
    (now1 now2 : Nat) (n1 n2 : String) (w1 w2 : World) (b1 b2 : Bytes)
    (h1 : (downloadHandler detect now1 n1 w1).body = some b1)
    (h2 : (downloadHandler detect now2 n2 w2).body = some b2)
    (hlen : b1.length = b2.length) :
    (downloadHandler detect now1 n1 w1).contentType
      = some (detect (List.replicate b1.length 0)) ∧
    (downloadHandler detect now1 n1 w1).contentType
      = (downloadHandler detect now2 n2 w2).contentType := by
  have key : ∀ (now : Nat) (n : String) (w : World) (b : Bytes),
      (downloadHandler detect now n w).body = some b →
      (downloadHandler detect now n w).contentType
        = some (detect (List.replicate b.length 0)) := by
    intro now n w b hb
    by_cases hne : n = ""
    · rw [hne] at hb
      simp [downloadHandler] at hb
    · cases hreg : lookupS w.files n with
      | none => simp [downloadHandler, hne, hreg] at hb
      | some e =>
        by_cases hgt : now > e
        · simp [downloadHandler, hne, hreg, hgt] at hb
        · cases hdisk : lookupS w.disk (joinPath w.storagePath n) with
          | none => simp [downloadHandler, hne, hreg, hgt, hdisk] at hb
          | some content =>
            have hbc : content = b := by
              simpa [downloadHandler, hne, hreg, hgt, hdisk] using hb
            subst hbc
            simp [downloadHandler, hne, hreg, hgt, hdisk]
  refine ⟨key now1 n1 w1 b1 h1, ?_⟩
  rw [key now1 n1 w1 b1 h1, key now2 n2 w2 b2 h2, hlen]

/-- Witness for C10: two stored files of equal size and different bytes
receive the same Content-Type under a concrete sniffer. -/
theorem content_type_depends_only_on_size_witness :
    (downloadHandler
        (fun b => if b.length = 0 then "text/plain" else "application/x")
        0 "simplehost-1.txt"
        ⟨"up", [("simplehost-1.txt", 10)],
          [("up/simplehost-1.txt", [0, 1])]⟩).contentType
      = some ((fun b =>
          if b.length = 0 then "text/plain" else "application/x")
          (List.replicate ([0, 1] : Bytes).length 0)) ∧
    (downloadHandler
        (fun b => if b.length = 0 then "text/plain" else "application/x")
        0 "simplehost-1.txt"
        ⟨"up", [("simplehost-1.txt", 10)],
          [("up/simplehost-1.txt", [0, 1])]⟩).contentType
      = (downloadHandler
          (fun b => if b.length = 0 then "text/plain" else "application/x")
          0 "simplehost-2.txt"
          ⟨"up", [("simplehost-2.txt", 10)],
            [("up/simplehost-2.txt", [2, 3])]⟩).contentType :=
  content_type_depends_only_on_size
    (fun b => if b.length = 0 then "text/plain" else "application/x")
    0 0 "simplehost-1.txt" "simplehost-2.txt"
    ⟨"up", [("simplehost-1.txt", 10)], [("up/simplehost-1.txt", [0, 1])]⟩
    ⟨"up", [("simplehost-2.txt", 10)], [("up/simplehost-2.txt", [2, 3])]⟩
    [0, 1] [2, 3] (by decide) (by decide) (by decide)

/-! ## Claim C4 -/

/-- C4 is false of the code: the argument of `ParseMultipartForm` is a
memory-buffering threshold, not a request-size cap, so a well-formed
upload whose decoded multipart body exceeds 10 MiB is parsed, accepted
with success, and its file is written to storage — not rejected with
BadRequest.  This contradicts the source's own comment ("10 MB max file
size", main.go:67) and the served page ("Max Upload Size : 10MB"). -/
theorem oversized_upload_accepted (io : IOOracle) (now : Nat) (f : String)
    (content : Bytes) (size : Nat) (w : World)
    (_hsize : 10 * 1048576 < size) (_hlen : content.length ≤ size)
    (hc : io.createOk = true) (hk : io.copyOk = true) :
    (uploadHandler io now ⟨"POST", true, size, some (f, content)⟩
        w).2.1.status = HttpStatus.ok ∧
    lookupS (uploadHandler io now ⟨"POST", true, size, some (f, content)⟩
        w).1.disk (joinPath w.storagePath (newFileNameOf now f))
      = some content := by
  simp [uploadHandler, parseMultipartForm, hc, hk, lookupS_setS_self]

/-- Witness for C4's refuting theorem: a 10 MiB + 1 byte body whose file
part is 10 MiB + 1 zero bytes is accepted and stored. -/
theorem oversized_upload_accepted_witness :
    (uploadHandler ⟨true, true, 0⟩ 0
        ⟨"POST", true, 10485761,
          some ("big.bin", List.replicate 10485761 0)⟩
        (initWorld "./uploads" [])).2.1.status = HttpStatus.ok ∧
    lookupS (uploadHandler ⟨true, true, 0⟩ 0
        ⟨"POST", true, 10485761,
          some ("big.bin", List.replicate 10485761 0)⟩
        (initWorld "./uploads" [])).1.disk
      (joinPath "./uploads" (newFileNameOf 0 "big.bin"))
      = some (List.replicate 10485761 0) :=
  oversized_upload_accepted ⟨true, true, 0⟩ 0 "big.bin"
    (List.replicate 10485761 0) 10485761 (initWorld "./uploads" [])
    (by norm_num) (Nat.le_of_eq (List.length_replicate _ _)) rfl rfl

end SimpleHost
